import Mathlib

/-!
Verification development for the actorlib repository (source/actorlib.hpp,
source/actorlib.cpp): a thread-per-actor runtime with a FIFO mailbox, a
reference-counted blocking future (result<R>), and a fixed-arity ladder of
bound invocations.

The stateful, concurrent parts of the code are embedded as explicit
transition systems: each constructor of a step relation is one atomic
region of the source (a mutex-protected block, one semaphore operation, or
one pthread condition-variable event), and interleaving of caller threads
with the worker thread is arbitrary interleaving of steps.
-/

namespace Actorlib

/-- Messages of the mailbox. In the source a message is a heap object with a
virtual exec method; the only message that touches the loop flag is the exit
sentinel that actor::exit enqueues (its exec calls actor::_exit, which sets
m_loop to false, actorlib.cpp lines 40-42). Every other message runs a
handler and leaves the loop flag alone, so messages are modelled as either a
work item with an identifier or the exit sentinel. -/
inductive message where
  | work (id : Nat)
  | exitMsg
deriving DecidableEq, Repr

/-- Position of the worker thread inside actor::run (actorlib.cpp lines
46-63): about to test m_loop, about to call sem_wait, between a completed
sem_wait and the mutex-protected front/pop_front block, about to call exec
on a popped message, or returned from run. -/
inductive WorkerPhase where
  | atCheck
  | atWait
  | popping
  | atExec (m : message)
  | terminated
deriving DecidableEq, Repr

/-- State of one actor together with the ghost trace fields executed and
enqueued. Fields m_loop, m_messages and m_sem mirror the members of class
actor (actorlib.hpp lines 703-716); pendingPosts counts caller threads that
have completed the mutex-protected push_back of actor::put but not yet its
sem_post (the post happens after the unlock, actorlib.cpp lines 31-36);
executed is the sequence of messages whose exec has run, and enqueued the
sequence of all messages ever pushed, both in order. -/
structure ActorState where
  m_loop : Bool
  m_messages : List message
  m_sem : Nat
  pendingPosts : Nat
  phase : WorkerPhase
  executed : List message
  enqueued : List message
deriving DecidableEq, Repr

/-- Initial state after actor::actor (actorlib.cpp lines 11-16): loop flag
true, empty mailbox, semaphore initialised to zero, worker thread started at
the top of the run loop. -/
def actorInit : ActorState :=
  { m_loop := true, m_messages := [], m_sem := 0, pendingPosts := 0,
    phase := WorkerPhase.atCheck, executed := [], enqueued := [] }

/-- Effect of executing one message on the loop flag: the exit sentinel
clears it (actor::_exit, actorlib.cpp line 41), a work message leaves it. -/
def msgExecLoop (m : message) (l : Bool) : Bool :=
  match m with
  | message.exitMsg => false
  | message.work _ => l

/-- The message currently being executed, if any: at most one, because one
worker thread runs the loop. -/
def inFlight : WorkerPhase → List message
  | WorkerPhase.atExec m => [m]
  | _ => []

/-- One when the worker is between sem_wait and the pop, zero otherwise. -/
def popFlag : WorkerPhase → Nat
  | WorkerPhase.popping => 1
  | _ => 0

/-- True when the worker has passed the loop test and not yet returned to
it: in these phases the loop flag was observed true and only the worker
itself (through exec of a message) can change it. -/
def workerBusy : WorkerPhase → Bool
  | WorkerPhase.atWait => true
  | WorkerPhase.popping => true
  | WorkerPhase.atExec _ => true
  | _ => false

/-- Atomic steps of the actor system. putPush and putPost are the two
halves of actor::put (mutex-protected push_back, then sem_post after the
unlock, actorlib.cpp lines 31-36); any caller thread may take them at any
time, and several callers may be between their push and their post at once.
checkTrue and checkFalse are the while test of actor::run; semWait is a
completed sem_wait (only enabled when the semaphore count is positive);
popFront is the mutex-protected block that takes and removes the front of
m_messages (lines 53-57); execMsg is the exec call on the popped message
(lines 60-61). -/
inductive AStep : ActorState → ActorState → Prop where
  | putPush (s : ActorState) (m : message) :
      AStep s { s with m_messages := s.m_messages ++ [m],
                       pendingPosts := s.pendingPosts + 1,
                       enqueued := s.enqueued ++ [m] }
  | putPost (s : ActorState) (h : 0 < s.pendingPosts) :
      AStep s { s with m_sem := s.m_sem + 1, pendingPosts := s.pendingPosts - 1 }
  | checkTrue (s : ActorState) (hp : s.phase = WorkerPhase.atCheck)
      (hl : s.m_loop = true) :
      AStep s { s with phase := WorkerPhase.atWait }
  | checkFalse (s : ActorState) (hp : s.phase = WorkerPhase.atCheck)
      (hl : s.m_loop = false) :
      AStep s { s with phase := WorkerPhase.terminated }
  | semWait (s : ActorState) (hp : s.phase = WorkerPhase.atWait)
      (h : 0 < s.m_sem) :
      AStep s { s with m_sem := s.m_sem - 1, phase := WorkerPhase.popping }
  | popFront (s : ActorState) (m : message) (rest : List message)
      (hp : s.phase = WorkerPhase.popping)
      (hm : s.m_messages = m :: rest) :
      AStep s { s with m_messages := rest, phase := WorkerPhase.atExec m }
  | execMsg (s : ActorState) (m : message)
      (hp : s.phase = WorkerPhase.atExec m) :
      AStep s { s with m_loop := msgExecLoop m s.m_loop,
                       executed := s.executed ++ [m],
                       phase := WorkerPhase.atCheck }

/-- States reachable from the freshly constructed actor. -/
inductive AReach : ActorState → Prop where
  | init : AReach actorInit
  | step {s s' : ActorState} : AReach s → AStep s s' → AReach s'

end Actorlib

namespace Actorlib

/-- Shared storage of result<R> (struct result<R>::data, actorlib.hpp lines
85-147): reference count, value slot and the value-set flag. The mutex and
condition variable are not data; waiting is modelled by the CondState
machine below. -/
structure data (R : Type) where
  m_ref_count : Nat
  m_value : R
  m_value_set : Bool
deriving DecidableEq, Repr

/-- Constructor of data (actorlib.hpp lines 102-107): reference count one,
the placeholder value stored, the set flag false. -/
def mkData {R : Type} (v : R) : data R :=
  { m_ref_count := 1, m_value := v, m_value_set := false }

/-- inc_ref (actorlib.hpp lines 116-120): increments the count under the
mutex. -/
def data.inc_ref {R : Type} (d : data R) : data R :=
  { d with m_ref_count := d.m_ref_count + 1 }

/-- dec_ref (actorlib.hpp lines 123-128): decrements the count under the
mutex and deletes the object exactly when the count reaches zero; none
models the deleted object. -/
def data.dec_ref {R : Type} (d : data R) : Option (data R) :=
  if d.m_ref_count - 1 = 0 then none
  else some { d with m_ref_count := d.m_ref_count - 1 }

/-- set (actorlib.hpp lines 140-146): stores the value and raises the set
flag under the mutex, then signals the condition variable. -/
def data.set {R : Type} (v : R) (d : data R) : data R :=
  { d with m_value := v, m_value_set := true }

/-- get (actorlib.hpp lines 131-137) as seen from a state in which the call
starts: when the set flag is up the caller reads and returns the value with
no wait (some); when it is down the caller suspends in pthread_cond_wait
(none). -/
def data.get {R : Type} (d : data R) : Option R :=
  if d.m_value_set then some d.m_value else none

/-- Execution of a zero-argument message with a non-void result
(object_message_0::exec with invoker exec for zero parameters, actorlib.hpp
lines 225-227 and 431-433): the bound handler runs and its return value is
assigned to the paired result, which calls data set. -/
def object_message_0_exec {R : Type} (f : Unit → R) (d : data R) : data R :=
  data.set (f ()) d

/-- Operations other threads can apply to a live data object; dec_ref may
delete it. -/
inductive DataOp (R : Type) where
  | inc_ref
  | dec_ref
  | setOp (v : R)

/-- Applies one operation to a live data object; none means the object was
deleted by dec_ref. -/
def applyOp {R : Type} (op : DataOp R) (d : data R) : Option (data R) :=
  match op with
  | DataOp.inc_ref => some d.inc_ref
  | DataOp.dec_ref => d.dec_ref
  | DataOp.setOp v => some (data.set v d)

/-- Lifetime state of one shared data object together with the ghost number
of live handles (result<R> objects whose m_data points at it). none in
store means the object has been deleted. -/
structure RcState (R : Type) where
  store : Option (data R)
  handles : Nat
deriving Repr

/-- State right after result(v): one fresh data object with count one, held
by the single creating handle (actorlib.hpp line 23). -/
def rcInit {R : Type} (v : R) : RcState R :=
  { store := some (mkData v), handles := 1 }

/-- Handle events against one data object. attach is the copy constructor
or the assignment source (both call inc_ref, actorlib.hpp lines 28-30 and
43): a new handle starts aliasing the object. detach is the destructor or
the assignment target release (both call dec_ref, lines 34-36 and 44): an
existing live handle stops aliasing the object, so it requires at least one
handle. setValue is a set through any handle and does not touch the count. -/
inductive RcStep {R : Type} : RcState R → RcState R → Prop where
  | attach (s : RcState R) (d : data R) (hs : s.store = some d) :
      RcStep s { store := some d.inc_ref, handles := s.handles + 1 }
  | detach (s : RcState R) (d : data R) (hs : s.store = some d)
      (hh : 0 < s.handles) :
      RcStep s { store := d.dec_ref, handles := s.handles - 1 }
  | setValue (s : RcState R) (d : data R) (v : R) (hs : s.store = some d) :
      RcStep s { store := some (data.set v d), handles := s.handles }

/-- States of one shared data object reachable from its creation with
placeholder v. -/
inductive RcReach {R : Type} (v : R) : RcState R → Prop where
  | init : RcReach v (rcInit v)
  | step {s s' : RcState R} : RcReach v s → RcStep s s' → RcReach v s'

end Actorlib

namespace Actorlib

/-- Status of one thread interacting with result<R>::get: it has not called
get yet, it is suspended inside pthread_cond_wait, its pthread_cond_wait has
returned and it is about to read m_value while reholding the mutex, or its
get call has returned the given value. -/
inductive TStatus (R : Type) where
  | idle
  | inWait
  | woken
  | returned (v : R)
deriving DecidableEq, Repr

/-- Shared data of one result as the condition-variable machine sees it,
plus the status of a fixed set of threads (indexed by list position). -/
structure CondState (R : Type) where
  m_value : R
  m_value_set : Bool
  threads : List (TStatus R)
deriving DecidableEq, Repr

/-- Atomic events of get and set (actorlib.hpp lines 131-146) under POSIX
condition-variable semantics. getFast: a caller locks the mutex, sees the
set flag up, reads the value and returns without waiting. getBlock: a
caller locks the mutex, sees the flag down, and suspends in
pthread_cond_wait. setSignal: set stores the value and raises the flag
under the mutex, then pthread_cond_signal unblocks one of the threads
suspended in the wait (POSIX guarantees at least one is unblocked when any
are waiting; unblocking exactly one is an allowed behaviour and is the one
modelled). setNoWaiter: the same when no thread is waiting, so the signal
has no effect. spuriousWake: POSIX permits pthread_cond_wait to return with
no signal at all. finishGet: a thread whose wait has returned reacquires
the mutex and, because get rechecks nothing (the test of m_value_set is an
if, not a while, line 133), reads the current m_value and returns it. -/
inductive CStep {R : Type} : CondState R → CondState R → Prop where
  | getFast (s : CondState R) (t : Nat)
      (ht : s.threads[t]? = some TStatus.idle) (hset : s.m_value_set = true) :
      CStep s { s with threads := s.threads.set t (TStatus.returned s.m_value) }
  | getBlock (s : CondState R) (t : Nat)
      (ht : s.threads[t]? = some TStatus.idle) (hset : s.m_value_set = false) :
      CStep s { s with threads := s.threads.set t TStatus.inWait }
  | setSignal (s : CondState R) (v : R) (t : Nat)
      (ht : s.threads[t]? = some TStatus.inWait) :
      CStep s { s with m_value := v, m_value_set := true,
                       threads := s.threads.set t TStatus.woken }
  | setNoWaiter (s : CondState R) (v : R)
      (hnw : TStatus.inWait ∉ s.threads) :
      CStep s { s with m_value := v, m_value_set := true }
  | spuriousWake (s : CondState R) (t : Nat)
      (ht : s.threads[t]? = some TStatus.inWait) :
      CStep s { s with threads := s.threads.set t TStatus.woken }
  | finishGet (s : CondState R) (t : Nat)
      (ht : s.threads[t]? = some TStatus.woken) :
      CStep s { s with threads := s.threads.set t (TStatus.returned s.m_value) }

/-- Reflexive-transitive closure of CStep. -/
inductive CReach {R : Type} : CondState R → CondState R → Prop where
  | refl (s : CondState R) : CReach s s
  | step {s s' s'' : CondState R} : CReach s s' → CStep s' s'' → CReach s s''

end Actorlib

namespace Actorlib

/-- Numbers of captured arguments for which actorlib.hpp declares an
actor::put overload (lines 186-211): zero, one and two parameters only. -/
def putArities : List Nat := [0, 1, 2]

/-- Numbers of captured arguments for which the general template
invoker<C, R> declares an exec overload whose result parameter has type
result<R> and whose member-function pointer returns R (actorlib.hpp lines
225-231): only the zero- and one-argument overloads. The two- to
nine-argument overloads of the general template (lines 235-304) are
declared with a result<void> parameter and a void member-function pointer,
so they never match a call with a non-void R. -/
def invokerGeneralArities : List Nat := [0, 1]

/-- Numbers of captured arguments for which the void specialisation
invoker<C, void> declares an exec overload (actorlib.hpp lines 308-391):
zero through nine. -/
def invokerVoidArities : List Nat := [0, 1, 2, 3, 4, 5, 6, 7, 8, 9]

/-- Whether a caller can enqueue a bound method with n captured arguments:
an actor::put overload of that arity must exist, and the exec overload its
object_message instantiation resolves to must accept the result type (the
invoker<C, void> ladder for void methods, the general invoker<C, R> ladder
for non-void methods). -/
def canEnqueue (n : Nat) (isVoid : Bool) : Bool :=
  decide (n ∈ putArities) &&
    (if isVoid then decide (n ∈ invokerVoidArities)
     else decide (n ∈ invokerGeneralArities))

end Actorlib

namespace Actorlib

/-- List fact: appending one element a to a list that does not contain a
allows only the decomposition whose tail after a is empty. -/
theorem concat_eq_append_cons {α : Type} {a : α} :
    ∀ (p l q : List α), a ∉ l → l ++ [a] = p ++ a :: q → p = l ∧ q = [] := by
  intro p
  induction p with
  | nil =>
    intro l q hl h
    cases l with
    | nil => simp at h; exact ⟨rfl, h⟩
    | cons x l' =>
      simp at h
      exact absurd (h.1 ▸ List.mem_cons_self x l') hl
  | cons x p' ih =>
    intro l q hl h
    cases l with
    | nil =>
      exfalso
      have hlen := congrArg List.length h
      simp at hlen
    | cons y l' =>
      simp at h
      obtain ⟨hxy, h2⟩ := h
      have hl' : a ∉ l' := fun hm => hl (List.mem_cons_of_mem y hm)
      obtain ⟨hp, hq⟩ := ih l' q hl' h2
      exact ⟨by simp [hxy, hp], hq⟩

/-- List fact: two decompositions of the same list at the first occurrence
of a coincide. -/
theorem first_occ_eq {α : Type} {a : α} :
    ∀ (p p' t t' : List α), a ∉ p → a ∉ p' →
      p ++ a :: t = p' ++ a :: t' → p = p' ∧ t = t' := by
  intro p
  induction p with
  | nil =>
    intro p' t t' _ hp' h
    cases p' with
    | nil => simp at h; exact ⟨rfl, h⟩
    | cons y q' =>
      simp at h
      exact absurd (h.1 ▸ List.mem_cons_self y q') hp'
  | cons x p2 ih =>
    intro p' t t' hp hp' h
    cases p' with
    | nil =>
      simp at h
      exact absurd (h.1 ▸ List.mem_cons_self x p2) hp
    | cons y q' =>
      simp at h
      obtain ⟨hxy, h2⟩ := h
      have h1 : a ∉ p2 := fun hm => hp (List.mem_cons_of_mem x hm)
      have h3 : a ∉ q' := fun hm => hp' (List.mem_cons_of_mem y hm)
      obtain ⟨hpe, hte⟩ := ih q' t t' h1 h3 h2
      exact ⟨by simp [hxy, hpe], hte⟩

/-- List fact: a front part of p followed by a pivot a, when the front part
does not contain a, extends to p itself. -/
theorem front_part_no_pivot {α : Type} {a : α} :
    ∀ (p l t q : List α), l ++ t = p ++ a :: q → a ∉ l →
      ∃ t2, l ++ t2 = p := by
  intro p
  induction p with
  | nil =>
    intro l t q h hl
    cases l with
    | nil => exact ⟨[], rfl⟩
    | cons x l' =>
      simp at h
      exact absurd (h.1 ▸ List.mem_cons_self x l') hl
  | cons x p' ih =>
    intro l t q h hl
    cases l with
    | nil => exact ⟨x :: p', rfl⟩
    | cons y l' =>
      simp at h
      obtain ⟨hxy, h2⟩ := h
      have hl' : a ∉ l' := fun hm => hl (List.mem_cons_of_mem y hm)
      obtain ⟨t2, ht2⟩ := ih l' t q h2 hl'
      exact ⟨t2, by simp [hxy, ht2]⟩

/-- Invariant of the actor transition system. queueEq: the executed
messages, the message in flight and the queued messages are exactly the
enqueued messages, in order. semBound: the semaphore count, the pending
posts and a completed but unconsumed wait never exceed the queue length.
loopNoExit: while the loop flag is up, the sentinel has not run. exitLast:
the sentinel, once executed, is the last executed message and the loop flag
is down. busyLoop: past the while test the loop flag is up. termLoop: a
terminated worker saw the flag down. stopExit: the flag goes down only by
executing the sentinel. -/
structure ActorInv (s : ActorState) : Prop where
  queueEq : s.executed ++ inFlight s.phase ++ s.m_messages = s.enqueued
  semBound : s.m_sem + s.pendingPosts + popFlag s.phase ≤ s.m_messages.length
  loopNoExit : s.m_loop = true → message.exitMsg ∉ s.executed
  exitLast : ∀ p q, s.executed = p ++ message.exitMsg :: q →
    q = [] ∧ s.m_loop = false
  busyLoop : workerBusy s.phase = true → s.m_loop = true
  termLoop : s.phase = WorkerPhase.terminated → s.m_loop = false
  stopExit : s.m_loop = false → message.exitMsg ∈ s.executed

/-- The freshly constructed actor satisfies the invariant. -/
theorem actorInv_init : ActorInv actorInit := by
  refine ⟨rfl, by simp [actorInit, inFlight, popFlag], ?_, ?_, ?_, ?_, ?_⟩
  · intro _; simp [actorInit]
  · intro p q h
    exfalso
    have := congrArg List.length h
    simp [actorInit] at this
    omega
  · intro _; rfl
  · intro h; simp [actorInit] at h
  · intro h; simp [actorInit] at h

/-- Every step of the actor system preserves the invariant. -/
theorem actorInv_step {s s' : ActorState} (inv : ActorInv s)
    (hs : AStep s s') : ActorInv s' := by
  cases hs with
  | putPush m =>
    refine ⟨?_, ?_, ?_, ?_, ?_, ?_, ?_⟩
    · dsimp only
      have := congrArg (· ++ [m]) inv.queueEq
      simpa [List.append_assoc] using this
    · dsimp only
      have := inv.semBound
      simp only [List.length_append, List.length_cons, List.length_nil]
      omega
    · dsimp only; exact inv.loopNoExit
    · dsimp only; exact inv.exitLast
    · dsimp only; exact inv.busyLoop
    · dsimp only; exact inv.termLoop
    · dsimp only; exact inv.stopExit
  | putPost h =>
    refine ⟨?_, ?_, ?_, ?_, ?_, ?_, ?_⟩
    · dsimp only; exact inv.queueEq
    · dsimp only
      have := inv.semBound
      omega
    · dsimp only; exact inv.loopNoExit
    · dsimp only; exact inv.exitLast
    · dsimp only; exact inv.busyLoop
    · dsimp only; exact inv.termLoop
    · dsimp only; exact inv.stopExit
  | checkTrue hp hl =>
    refine ⟨?_, ?_, ?_, ?_, ?_, ?_, ?_⟩
    · dsimp only
      have := inv.queueEq
      rw [hp] at this
      simpa [inFlight] using this
    · dsimp only
      have := inv.semBound
      rw [hp] at this
      simpa [popFlag] using this
    · dsimp only; exact inv.loopNoExit
    · dsimp only; exact inv.exitLast
    · dsimp only; intro _; exact hl
    · dsimp only; intro h; simp at h
    · dsimp only; exact inv.stopExit
  | checkFalse hp hl =>
    refine ⟨?_, ?_, ?_, ?_, ?_, ?_, ?_⟩
    · dsimp only
      have := inv.queueEq
      rw [hp] at this
      simpa [inFlight] using this
    · dsimp only
      have := inv.semBound
      rw [hp] at this
      simpa [popFlag] using this
    · dsimp only; exact inv.loopNoExit
    · dsimp only; exact inv.exitLast
    · dsimp only; intro h; simp [workerBusy] at h
    · dsimp only; intro _; exact hl
    · dsimp only; exact inv.stopExit
  | semWait hp h =>
    refine ⟨?_, ?_, ?_, ?_, ?_, ?_, ?_⟩
    · dsimp only
      have := inv.queueEq
      rw [hp] at this
      simpa [inFlight] using this
    · dsimp only
      have := inv.semBound
      rw [hp] at this
      simp [popFlag] at this ⊢
      omega
    · dsimp only; exact inv.loopNoExit
    · dsimp only; exact inv.exitLast
    · dsimp only
      intro _
      exact inv.busyLoop (by rw [hp]; rfl)
    · dsimp only; intro hterm; simp at hterm
    · dsimp only; exact inv.stopExit
  | popFront m rest hp hm =>
    refine ⟨?_, ?_, ?_, ?_, ?_, ?_, ?_⟩
    · dsimp only
      have := inv.queueEq
      rw [hp, hm] at this
      simpa [inFlight] using this
    · dsimp only
      have := inv.semBound
      rw [hp, hm] at this
      simp [popFlag] at this ⊢
      omega
    · dsimp only; exact inv.loopNoExit
    · dsimp only; exact inv.exitLast
    · dsimp only
      intro _
      exact inv.busyLoop (by rw [hp]; rfl)
    · dsimp only; intro hterm; simp at hterm
    · dsimp only; exact inv.stopExit
  | execMsg m hp =>
    have hloop : s.m_loop = true := inv.busyLoop (by rw [hp]; rfl)
    have hnm : message.exitMsg ∉ s.executed := inv.loopNoExit hloop
    refine ⟨?_, ?_, ?_, ?_, ?_, ?_, ?_⟩
    · dsimp only
      have := inv.queueEq
      rw [hp] at this
      simpa [inFlight, List.append_assoc] using this
    · dsimp only
      have := inv.semBound
      rw [hp] at this
      simpa [popFlag] using this
    · dsimp only
      intro hl'
      cases m with
      | exitMsg => simp [msgExecLoop] at hl'
      | work i => simp [hnm]
    · dsimp only
      intro p q hdec
      cases m with
      | exitMsg =>
        obtain ⟨hpe, hq⟩ := concat_eq_append_cons p s.executed q hnm hdec
        exact ⟨hq, by simp [msgExecLoop]⟩
      | work i =>
        exfalso
        have hmem : message.exitMsg ∈ s.executed ++ [message.work i] := by
          rw [hdec]; simp
        simp at hmem
        exact hnm hmem
    · dsimp only; intro hb; simp [workerBusy] at hb
    · dsimp only; intro hterm; simp at hterm
    · dsimp only
      intro hl'
      cases m with
      | exitMsg => simp
      | work i =>
        simp only [msgExecLoop] at hl'
        rw [hloop] at hl'
        simp at hl'

/-- Every reachable state of the actor system satisfies the invariant. -/
theorem actorInv_reach {s : ActorState} (h : AReach s) : ActorInv s := by
  induction h with
  | init => exact actorInv_init
  | step _ hs ih => exact actorInv_step ih hs

/-- Helper: when the executed list ends with the sentinel, the sentinel
does not also occur earlier in it. -/
theorem executed_no_exit_before {s : ActorState} (inv : ActorInv s)
    {p0 : List message}
    (hdec : s.executed = p0 ++ message.exitMsg :: []) :
    message.exitMsg ∉ p0 := by
  intro hmem
  obtain ⟨u, w, hu⟩ := List.append_of_mem hmem
  have hx : s.executed = u ++ message.exitMsg :: (w ++ [message.exitMsg]) := by
    rw [hdec, hu]; simp
  have := (inv.exitLast u _ hx).1
  simp at this

/-- Claim C1: every message successfully enqueued through actor::put is
executed by the worker loop in exactly the enqueue order: in every
reachable state the executed messages form a front part of the enqueued
sequence, the executed messages followed by the in-flight message and the
queued messages are exactly the enqueued sequence (so nothing is reordered
or dropped), and at most one message is in execution at any time (the
single worker thread). -/
theorem actor_fifo_order (s : ActorState) (h : AReach s) :
    (∃ rest, s.executed ++ rest = s.enqueued) ∧
    s.executed ++ inFlight s.phase ++ s.m_messages = s.enqueued ∧
    (inFlight s.phase).length ≤ 1 := by
  have inv := actorInv_reach h
  refine ⟨⟨inFlight s.phase ++ s.m_messages,
    by simpa [List.append_assoc] using inv.queueEq⟩, inv.queueEq, ?_⟩
  cases hp : s.phase <;> simp [inFlight]

/-- Demonstration state: one work message was enqueued, posted, dequeued
and executed. -/
def actorDemo : ActorState :=
  { m_loop := true, m_messages := [], m_sem := 0, pendingPosts := 0,
    phase := WorkerPhase.atCheck, executed := [message.work 7],
    enqueued := [message.work 7] }

/-- The demonstration state is reachable. -/
theorem actorDemo_reach : AReach actorDemo := by
  have h0 : AReach actorInit := AReach.init
  have h1 := AReach.step h0 (AStep.putPush actorInit (message.work 7))
  have h2 := AReach.step h1 (AStep.putPost _ (by decide))
  have h3 := AReach.step h2 (AStep.checkTrue _ rfl rfl)
  have h4 := AReach.step h3 (AStep.semWait _ rfl (by decide))
  have h5 := AReach.step h4 (AStep.popFront _ (message.work 7) [] rfl rfl)
  have h6 := AReach.step h5 (AStep.execMsg _ (message.work 7) rfl)
  exact h6

/-- Witness for C1 at the demonstration state. -/
theorem actor_fifo_order_witness :
    (∃ rest, actorDemo.executed ++ rest = actorDemo.enqueued) ∧
    actorDemo.executed ++ inFlight actorDemo.phase ++ actorDemo.m_messages
      = actorDemo.enqueued ∧
    (inFlight actorDemo.phase).length ≤ 1 :=
  actor_fifo_order actorDemo actorDemo_reach

/-- Claim C10: the assertion of the worker loop is valid. In every
reachable state the semaphore count is at most the number of queued
messages, and whenever the worker is between a completed sem_wait and the
front/pop_front block the message list is not empty, so the assert in
actor::run never fires and taking the front element is well defined. -/
theorem worker_assert_valid (s : ActorState) (h : AReach s) :
    s.m_sem ≤ s.m_messages.length ∧
    (s.phase = WorkerPhase.popping → s.m_messages ≠ []) := by
  have inv := actorInv_reach h
  have hb := inv.semBound
  constructor
  · omega
  · intro hp
    rw [hp] at hb
    simp [popFlag] at hb
    intro hnil
    rw [hnil] at hb
    simp at hb

/-- Demonstration state: the worker has completed sem_wait and is about to
pop, with one message queued. -/
def actorPopDemo : ActorState :=
  { m_loop := true, m_messages := [message.work 7], m_sem := 0,
    pendingPosts := 0, phase := WorkerPhase.popping, executed := [],
    enqueued := [message.work 7] }

/-- The pop demonstration state is reachable. -/
theorem actorPopDemo_reach : AReach actorPopDemo := by
  have h0 : AReach actorInit := AReach.init
  have h1 := AReach.step h0 (AStep.putPush actorInit (message.work 7))
  have h2 := AReach.step h1 (AStep.putPost _ (by decide))
  have h3 := AReach.step h2 (AStep.checkTrue _ rfl rfl)
  have h4 := AReach.step h3 (AStep.semWait _ rfl (by decide))
  exact h4

/-- Witness for C10 at the pop demonstration state. -/
theorem worker_assert_valid_witness :
    actorPopDemo.m_sem ≤ actorPopDemo.m_messages.length ∧
    (actorPopDemo.phase = WorkerPhase.popping →
      actorPopDemo.m_messages ≠ []) :=
  worker_assert_valid actorPopDemo actorPopDemo_reach

/-- Claim C3: actor destruction is a graceful drain. The destructor
enqueues the exit sentinel at the tail of the mailbox and joins the worker
(actorlib.cpp lines 22-27); in any reachable state in which the worker has
terminated (the join has returned) and the sentinel was the last enqueued
message, every message enqueued before the sentinel has been executed, in
order, the mailbox is empty, and no step from this state executes anything
further. -/
theorem actor_destructor_drains (s : ActorState) (pending : List message)
    (h : AReach s) (hterm : s.phase = WorkerPhase.terminated)
    (henq : s.enqueued = pending ++ [message.exitMsg])
    (hnp : message.exitMsg ∉ pending) :
    s.executed = pending ++ [message.exitMsg] ∧ s.m_messages = [] ∧
    ∀ s', AStep s s' → s'.executed = s.executed := by
  have inv := actorInv_reach h
  have hl : s.m_loop = false := inv.termLoop hterm
  have hex : message.exitMsg ∈ s.executed := inv.stopExit hl
  obtain ⟨p0, q0, hdec⟩ := List.append_of_mem hex
  obtain ⟨hq0, -⟩ := inv.exitLast p0 q0 hdec
  subst hq0
  have hnp0 : message.exitMsg ∉ p0 := executed_no_exit_before inv hdec
  have hq := inv.queueEq
  rw [hterm] at hq
  simp only [inFlight, List.nil_append, List.append_nil] at hq
  rw [hdec, henq] at hq
  have hq' : p0 ++ message.exitMsg :: s.m_messages =
      pending ++ message.exitMsg :: [] := by
    simpa [List.append_assoc] using hq
  obtain ⟨hpp, hmm⟩ := first_occ_eq p0 pending s.m_messages [] hnp0 hnp hq'
  refine ⟨by rw [hdec, hpp], hmm, ?_⟩
  intro s' hs'
  cases hs' with
  | putPush m => rfl
  | putPost h => rfl
  | checkTrue hp hl2 => exact absurd (hterm.symm.trans hp) (by simp)
  | checkFalse hp hl2 => rfl
  | semWait hp h2 => exact absurd (hterm.symm.trans hp) (by simp)
  | popFront m rest hp hm => rfl
  | execMsg m hp => exact absurd (hterm.symm.trans hp) (by simp)

/-- Demonstration state: one work message and then the sentinel were
enqueued and processed, and the worker terminated. -/
def actorDrainDemo : ActorState :=
  { m_loop := false, m_messages := [], m_sem := 0, pendingPosts := 0,
    phase := WorkerPhase.terminated,
    executed := [message.work 1, message.exitMsg],
    enqueued := [message.work 1, message.exitMsg] }

/-- The drain demonstration state is reachable. -/
theorem actorDrainDemo_reach : AReach actorDrainDemo := by
  have h0 : AReach actorInit := AReach.init
  have h1 := AReach.step h0 (AStep.putPush actorInit (message.work 1))
  have h2 := AReach.step h1 (AStep.putPost _ (by decide))
  have h3 := AReach.step h2 (AStep.putPush _ message.exitMsg)
  have h4 := AReach.step h3 (AStep.putPost _ (by decide))
  have h5 := AReach.step h4 (AStep.checkTrue _ rfl rfl)
  have h6 := AReach.step h5 (AStep.semWait _ rfl (by decide))
  have h7 := AReach.step h6
    (AStep.popFront _ (message.work 1) [message.exitMsg] rfl rfl)
  have h8 := AReach.step h7 (AStep.execMsg _ (message.work 1) rfl)
  have h9 := AReach.step h8 (AStep.checkTrue _ rfl rfl)
  have h10 := AReach.step h9 (AStep.semWait _ rfl (by decide))
  have h11 := AReach.step h10 (AStep.popFront _ message.exitMsg [] rfl rfl)
  have h12 := AReach.step h11 (AStep.execMsg _ message.exitMsg rfl)
  have h13 := AReach.step h12 (AStep.checkFalse _ rfl rfl)
  exact h13

/-- Witness for C3 at the drain demonstration state. -/
theorem actor_destructor_drains_witness :
    actorDrainDemo.executed = [message.work 1] ++ [message.exitMsg] ∧
    actorDrainDemo.m_messages = [] ∧
    ∀ s', AStep actorDrainDemo s' → s'.executed = actorDrainDemo.executed :=
  actor_destructor_drains actorDrainDemo [message.work 1] actorDrainDemo_reach
    rfl rfl (by decide)

/-- Claim C9: a message enqueued after the exit sentinel is still accepted
into the mailbox (the push step is enabled in every state, so actor::put
never blocks or fails) but is never executed: in every reachable state
whose enqueued sequence has the sentinel followed by later messages, the
executed sequence never extends past the sentinel. -/
theorem messages_after_sentinel_not_executed (s : ActorState)
    (pending after : List message) (m : message) (h : AReach s)
    (henq : s.enqueued = pending ++ message.exitMsg :: after)
    (hnp : message.exitMsg ∉ pending) :
    AStep s { s with m_messages := s.m_messages ++ [m],
                     pendingPosts := s.pendingPosts + 1,
                     enqueued := s.enqueued ++ [m] } ∧
    ∃ rest, s.executed ++ rest = pending ++ [message.exitMsg] := by
  have inv := actorInv_reach h
  refine ⟨AStep.putPush s m, ?_⟩
  by_cases hex : message.exitMsg ∈ s.executed
  · obtain ⟨p0, q0, hdec⟩ := List.append_of_mem hex
    obtain ⟨hq0, -⟩ := inv.exitLast p0 q0 hdec
    subst hq0
    have hnp0 : message.exitMsg ∉ p0 := executed_no_exit_before inv hdec
    have hq := inv.queueEq
    rw [hdec, henq] at hq
    have hq' : p0 ++ message.exitMsg :: (inFlight s.phase ++ s.m_messages) =
        pending ++ message.exitMsg :: after := by
      simpa [List.append_assoc] using hq
    obtain ⟨hpp, -⟩ := first_occ_eq p0 pending _ after hnp0 hnp hq'
    exact ⟨[], by rw [hdec, hpp]; simp⟩
  · have hq := inv.queueEq
    rw [henq] at hq
    obtain ⟨t2, ht2⟩ := front_part_no_pivot pending s.executed
      (inFlight s.phase ++ s.m_messages) after
      (by simpa [List.append_assoc] using hq) hex
    exact ⟨t2 ++ [message.exitMsg], by rw [← List.append_assoc, ht2]⟩

/-- Demonstration state: the sentinel was enqueued and executed, a later
work message was enqueued behind it, the worker terminated and the late
message stays queued and unexecuted. -/
def actorLateDemo : ActorState :=
  { m_loop := false, m_messages := [message.work 5], m_sem := 1,
    pendingPosts := 0, phase := WorkerPhase.terminated,
    executed := [message.exitMsg],
    enqueued := [message.exitMsg, message.work 5] }

/-- The late demonstration state is reachable. -/
theorem actorLateDemo_reach : AReach actorLateDemo := by
  have h0 : AReach actorInit := AReach.init
  have h1 := AReach.step h0 (AStep.putPush actorInit message.exitMsg)
  have h2 := AReach.step h1 (AStep.putPost _ (by decide))
  have h3 := AReach.step h2 (AStep.putPush _ (message.work 5))
  have h4 := AReach.step h3 (AStep.putPost _ (by decide))
  have h5 := AReach.step h4 (AStep.checkTrue _ rfl rfl)
  have h6 := AReach.step h5 (AStep.semWait _ rfl (by decide))
  have h7 := AReach.step h6
    (AStep.popFront _ message.exitMsg [message.work 5] rfl rfl)
  have h8 := AReach.step h7 (AStep.execMsg _ message.exitMsg rfl)
  have h9 := AReach.step h8 (AStep.checkFalse _ rfl rfl)
  exact h9

/-- Witness for C9 at the late demonstration state. -/
theorem messages_after_sentinel_not_executed_witness :
    AStep actorLateDemo
      { actorLateDemo with
          m_messages := actorLateDemo.m_messages ++ [message.work 9],
          pendingPosts := actorLateDemo.pendingPosts + 1,
          enqueued := actorLateDemo.enqueued ++ [message.work 9] } ∧
    ∃ rest, actorLateDemo.executed ++ rest = [] ++ [message.exitMsg] :=
  messages_after_sentinel_not_executed actorLateDemo [] [message.work 5]
    (message.work 9) actorLateDemo_reach rfl (by decide)

/-- Invariant of the reference-count machine: while the data object is
live its reference count equals the number of live handles and at least
one handle exists; once deleted, no handle is left. -/
def RcInv {R : Type} (s : RcState R) : Prop :=
  (∀ d, s.store = some d → d.m_ref_count = s.handles ∧ 0 < s.handles) ∧
  (s.store = none → s.handles = 0)

/-- Every reachable state of the reference-count machine satisfies the
invariant. -/
theorem rcInv_reach {R : Type} {v : R} {s : RcState R} (h : RcReach v s) :
    RcInv s := by
  induction h with
  | init =>
    constructor
    · intro d hd
      simp [rcInit] at hd
      subst hd
      exact ⟨rfl, Nat.one_pos⟩
    · intro hd; simp [rcInit] at hd
  | step hr hs ih =>
    cases hs with
    | attach d hsd =>
      obtain ⟨hc, hpos⟩ := ih.1 d hsd
      constructor
      · intro d' hd'
        simp at hd'
        subst hd'
        exact ⟨by simp [data.inc_ref, hc], Nat.succ_pos _⟩
      · intro hd'; simp at hd'
    | detach d hsd hh =>
      obtain ⟨hc, hpos⟩ := ih.1 d hsd
      by_cases hz : d.m_ref_count - 1 = 0
      · constructor
        · intro d' hd'
          simp [data.dec_ref, hz] at hd'
        · intro _
          dsimp only
          omega
      · constructor
        · intro d' hd'
          simp [data.dec_ref, hz] at hd'
          subst hd'
          dsimp only
          constructor
          · omega
          · omega
        · intro hd'
          simp [data.dec_ref, hz] at hd'
    | setValue d vv hsd =>
      obtain ⟨hc, hpos⟩ := ih.1 d hsd
      constructor
      · intro d' hd'
        simp at hd'
        subst hd'
        exact ⟨by simp [data.set, hc], hpos⟩
      · intro hd'; simp at hd'

/-- Claim C4: the reference count of the shared storage of a result equals
the number of live handles aliasing it. It starts at one for the creating
handle, each attach (copy construction, assignment source) increments it
with the new handle, each detach (handle destruction, assignment target
release) decrements it with the leaving handle, and the storage is deleted
exactly when the count reaches zero, never while a handle still references
it. -/
theorem refcount_matches_live_handles {R : Type} (v : R) (s : RcState R)
    (h : RcReach v s) :
    (rcInit v).handles = 1 ∧ (mkData v).m_ref_count = 1 ∧
    (∀ d, s.store = some d → d.m_ref_count = s.handles ∧ 0 < s.handles) ∧
    (s.store = none → s.handles = 0) := by
  have inv := rcInv_reach h
  exact ⟨rfl, rfl, inv.1, inv.2⟩

/-- Demonstration state: a handle copy was made and both handles were then
released, so the storage was deleted with no handle left. -/
def rcDemo : RcState Nat := { store := none, handles := 0 }

/-- The reference-count demonstration state is reachable: create, copy,
release the copy, release the original. -/
theorem rcDemo_reach : RcReach (0 : Nat) rcDemo := by
  have h0 : RcReach (0 : Nat) (rcInit 0) := RcReach.init
  have h1 := RcReach.step h0 (RcStep.attach _ (mkData 0) rfl)
  have h2 := RcReach.step h1
    (RcStep.detach _ ((mkData 0).inc_ref) rfl (by decide))
  have h3 := RcReach.step h2
    (RcStep.detach _ { m_ref_count := 1, m_value := 0, m_value_set := false }
      rfl (by decide))
  exact h3

/-- Witness for C4 at the demonstration state. -/
theorem refcount_matches_live_handles_witness :
    (rcInit (0 : Nat)).handles = 1 ∧ (mkData (0 : Nat)).m_ref_count = 1 ∧
    (∀ d, rcDemo.store = some d →
      d.m_ref_count = rcDemo.handles ∧ 0 < rcDemo.handles) ∧
    (rcDemo.store = none → rcDemo.handles = 0) :=
  refcount_matches_live_handles 0 rcDemo rcDemo_reach

/-- Claim C5: set followed by get round-trips. After set v on the shared
storage, get on any handle of the same result (all handles read the same
data object) returns exactly v without waiting; in particular executing a
zero-argument message whose handler returns 42 leaves the paired result
with get returning 42. -/
theorem set_get_roundtrip :
    (∀ (R : Type) (v : R) (d : data R), data.get (data.set v d) = some v) ∧
    data.get (object_message_0_exec (fun _ => (42 : Nat)) (mkData 0)) =
      some 42 := by
  constructor
  · intro R v d
    simp [data.get, data.set]
  · rfl

/-- Claim C7: a get that starts after the value is set returns immediately
with the stored value and never suspends, and the set flag is monotone:
no operation on the data object (inc_ref, dec_ref, set) ever clears it. -/
theorem get_after_set_immediate :
    (∀ (R : Type) (d : data R), d.m_value_set = true →
      data.get d = some d.m_value) ∧
    (∀ (R : Type) (op : DataOp R) (d d' : data R),
      applyOp op d = some d' → d.m_value_set = true →
      d'.m_value_set = true) := by
  constructor
  · intro R d hd
    simp [data.get, hd]
  · intro R op d d' hap hd
    cases op with
    | inc_ref =>
      simp [applyOp] at hap
      subst hap
      simpa [data.inc_ref] using hd
    | dec_ref =>
      simp [applyOp, data.dec_ref] at hap
      obtain ⟨-, hap⟩ := hap
      subst hap
      simpa using hd
    | setOp v =>
      simp [applyOp] at hap
      subst hap
      simp [data.set]

/-- Witness for C7: after set 5 on a fresh data object, get returns the
stored value at once, and an inc_ref keeps the set flag up. -/
theorem get_after_set_immediate_witness :
    data.get (data.set 5 (mkData (0 : Nat))) =
      some (data.set 5 (mkData (0 : Nat))).m_value ∧
    ((data.set 5 (mkData (0 : Nat))).inc_ref).m_value_set = true :=
  ⟨get_after_set_immediate.1 Nat _ rfl,
   get_after_set_immediate.2 Nat DataOp.inc_ref _ _ rfl rfl⟩

/-- Start state for the broadcast test: value placeholder zero, value not
set, two threads that have not called get yet. -/
def c2Start : CondState Nat :=
  { m_value := 0, m_value_set := false,
    threads := [TStatus.idle, TStatus.idle] }

/-- State after both threads blocked in get and set 42 ran once: the
signal of set unblocked thread zero only; thread one is still suspended. -/
def c2End : CondState Nat :=
  { m_value := 42, m_value_set := true,
    threads := [TStatus.woken, TStatus.inWait] }

/-- Claim C2 is violated by the code: result data set uses
pthread_cond_signal, which unblocks one waiting thread, not every one,
although the documentation of result set promises that any thread waiting
on the result will be awoken. Evaluated at the failing input (two threads
suspended in get when set 42 runs): the run below is reachable, set has
completed (the flag is up and the value stored), and the second thread is
still suspended inside the wait. -/
theorem set_signal_leaves_waiter_blocked :
    CReach c2Start c2End ∧ c2End.m_value_set = true ∧
    c2End.m_value = 42 ∧ c2End.threads[1]? = some TStatus.inWait := by
  refine ⟨?_, rfl, rfl, rfl⟩
  have h0 : CReach c2Start c2Start := CReach.refl _
  have h1 := CReach.step h0 (CStep.getBlock c2Start 0 rfl rfl)
  have h2 := CReach.step h1 (CStep.getBlock _ 1 rfl rfl)
  have h3 := CReach.step h2 (CStep.setSignal _ 42 0 rfl)
  exact h3

/-- Start state for the spurious-wake test: value placeholder zero, value
not set, one thread that has not called get yet. -/
def c6Start : CondState Nat :=
  { m_value := 0, m_value_set := false, threads := [TStatus.idle] }

/-- State after the thread blocked in get, its pthread_cond_wait returned
spuriously, and get went on to read the value: get has returned the
placeholder zero although set never ran. -/
def c6End : CondState Nat :=
  { m_value := 0, m_value_set := false,
    threads := [TStatus.returned 0] }

/-- Claim C6 is violated by the code: get wraps pthread_cond_wait in an
if, not a while, so it does not recheck m_value_set after the wait
returns, although POSIX permits the wait to return with no signal.
Evaluated at the failing input (one thread calls get before any set and
its wait wakes spuriously): the run below is reachable and ends with get
having returned the placeholder default while the value is still unset. -/
theorem spurious_wake_returns_placeholder :
    CReach c6Start c6End ∧
    c6End.threads[0]? = some (TStatus.returned 0) ∧
    c6End.m_value_set = false := by
  refine ⟨?_, rfl, rfl⟩
  have h0 : CReach c6Start c6Start := CReach.refl _
  have h1 := CReach.step h0 (CStep.getBlock c6Start 0 rfl rfl)
  have h2 := CReach.step h1 (CStep.spuriousWake _ 0 rfl)
  have h3 := CReach.step h2 (CStep.finishGet _ 0 rfl)
  exact h3

/-- Counterexample to claim C8 as stated: it is not the case that every
arity from 0 to 9 can be enqueued for both void and non-void return
types; at n equal to 3 neither kind has an actor::put overload. -/
theorem put_arity_counterexample :
    ¬ (∀ n : Nat, n ≤ 9 →
        canEnqueue n true = true ∧ canEnqueue n false = true) := by
  intro h
  exact absurd ((h 3 (by norm_num)).1) (by decide)

/-- Claim C8 amended: the enqueue operation supports bound invocations of
arity 0 to 2 for void-returning methods and arity 0 to 1 for non-void
methods; the message and invoker ladders go up to arity 9, but actor::put
has no overload beyond two captured arguments and the general invoker
overloads for two to nine arguments accept only void methods. -/
theorem put_arity_support (n : Nat) :
    (canEnqueue n true = true ↔ n ≤ 2) ∧
    (canEnqueue n false = true ↔ n ≤ 1) := by
  simp [canEnqueue, putArities, invokerVoidArities, invokerGeneralArities]
  omega

end Actorlib
